import Mathlib

/-!
Verification development for the buglit client-side issue-triage logic.

The repository contains several near-duplicate React front ends. The parts
relevant here are shallowly embedded below:

* the subset-form variant (`src/src/App.jsx`, first copy): `handleRepoClick`
  computes `importantIssues` by filtering the fetched issues against the
  title list returned by the triage endpoint, and `filteredIssues` excludes
  important issues by id;
* the order-form variant (`src/src/App.jsx`, second copy): `sortIssues`
  reorders the fetched issues with an `Array.prototype.sort` comparator
  built from `indexOf` over the returned title sequence;
* the partition-form variants (`src/unnamed/part_000`, `src/unnamed/part_002`):
  `categorizeIssues` rebuilds full issue records per category with
  `titles.map(find).filter(Boolean)`;
* `handlePyAction`: the command-submission round trip over `pyOutput` and
  `isThinking`.

Asynchronous handlers are embedded as explicit state-transition functions;
overlapping requests are modelled by interleaving the atomic segments that
run between awaits.
-/

/-- An issue record as fetched from the issue gateway: `id`, `number`,
`title`, `body`. Matching against triage results is by `title` only. -/
structure Issue where
  id : Nat
  number : Nat
  title : String
  body : String
deriving DecidableEq, Repr

/-- Lower-casing as used by `toLowerCase()` in the search filter, expressed
as a per-character map so that it evaluates by kernel reduction. -/
def jsToLower (s : String) : String :=
  ⟨s.data.map Char.toLower⟩

/-- Does the character list start with the given pattern. -/
def startsWithChars : List Char → List Char → Bool
  | [], _ => true
  | _ :: _, [] => false
  | c :: cs, d :: ds => c == d && startsWithChars cs ds

/-- Does the character list contain the pattern as a contiguous run. -/
def hasSubChars (pat : List Char) : List Char → Bool
  | [] => pat.isEmpty
  | c :: cs => startsWithChars pat (c :: cs) || hasSubChars pat cs

/-- JS `s.includes(pat)`: substring containment. -/
def jsIncludes (s pat : String) : Bool :=
  hasSubChars pat.data s.data

/-! ### Subset-form reconciliation (`src/src/App.jsx`, first copy)

`const importantIssues = data.filter(issue => importantIssueTitles.includes(issue.title))`
and
`const filteredIssues = issues.filter(issue =>
   issue.title.toLowerCase().includes(issueSearch.toLowerCase())
   && !importantIssues.some(important => important.id === issue.id))`. -/

/-- The `importantIssues` computation of `handleRepoClick`. -/
def importantIssues (data : List Issue) (importantIssueTitles : List String) : List Issue :=
  data.filter (fun issue => importantIssueTitles.contains issue.title)

/-- The `filteredIssues` derived list of the subset-form variant. -/
def filteredIssues (issues important : List Issue) (issueSearch : String) : List Issue :=
  issues.filter (fun issue =>
    jsIncludes (jsToLower issue.title) (jsToLower issueSearch)
      && !(important.any (fun imp => imp.id == issue.id)))

/-! ### Command submission (`handlePyAction`)

`handlePyAction` sets `isThinking := true` and `pyOutput := ""`, awaits the
command gateway, then sets `pyOutput := response` and (in `finally`)
`isThinking := false`. There is no per-submission token: whichever response
resolves last overwrites `pyOutput` unconditionally. -/

/-- The two state fields touched by `handlePyAction`. -/
structure CmdState where
  pyOutput : String
  isThinking : Bool
deriving DecidableEq, Repr

/-- Atomic segments of `handlePyAction`: the synchronous prefix before the
await, and the continuation that runs when a response resolves. -/
inductive CmdEvent where
  | start
  | finish (result : String)
deriving DecidableEq, Repr

/-- One atomic segment of `handlePyAction` applied to the visible state. -/
def cmdStep (s : CmdState) : CmdEvent → CmdState
  | .start => { s with pyOutput := "", isThinking := true }
  | .finish r => { s with pyOutput := r, isThinking := false }

/-- Run an interleaved schedule of command-submission segments. -/
def runCmd (s : CmdState) (events : List CmdEvent) : CmdState :=
  events.foldl cmdStep s

/-! ### Order-form reconciliation (`src/src/App.jsx`, second copy)

`sortIssues` computes `sortedTitles` from the triage response and runs

`issues.slice().sort((a, b) => {
   const aIndex = sortedTitles.indexOf(a.title);
   const bIndex = sortedTitles.indexOf(b.title);
   if (aIndex === -1) return 1;
   if (bIndex === -1) return -1;
   return aIndex - bIndex; })`.

`Array.prototype.sort` is a stable sort (TimSort in the engines this runs
on): an element being inserted goes after every element the comparator does
not place strictly above it. `sortInsert`/`jsArraySort` below implement
exactly those decisions. -/

/-- First index of `t` in `ts`, or `ts.length` when `t` does not occur
(the index form of JS `indexOf`, whose missing case is reconstructed in
`jsIndexOf`). -/
def titleIndex (t : String) : List String → Nat
  | [] => 0
  | s :: rest => if s == t then 0 else titleIndex t rest + 1

/-- JS `ts.indexOf(t)`: the first index of `t` in `ts`, or `-1`. -/
def jsIndexOf (ts : List String) (t : String) : Int :=
  if titleIndex t ts = ts.length then -1 else (titleIndex t ts : Int)

/-- The comparator passed to `sort` by `sortIssues`. -/
def issueCompare (sortedTitles : List String) (a b : Issue) : Int :=
  let aIndex := jsIndexOf sortedTitles a.title
  let bIndex := jsIndexOf sortedTitles b.title
  if aIndex = -1 then 1
  else if bIndex = -1 then -1
  else aIndex - bIndex

/-- Stable insertion of `x`: `x` is placed after every element `y` of the
already-sorted accumulator with `c x y ≥ 0`, before the first `y` with
`c x y < 0` (the decisions TimSort makes with comparator `c`). -/
def sortInsert (c : Issue → Issue → Int) (x : Issue) : List Issue → List Issue
  | [] => [x]
  | y :: ys => if 0 ≤ c x y then y :: sortInsert c x ys else x :: y :: ys

/-- `Array.prototype.sort` with comparator `c`: elements are inserted in
original order, so elements the comparator never separates keep their
relative positions (stability). -/
def jsArraySort (c : Issue → Issue → Int) (l : List Issue) : List Issue :=
  l.foldl (fun acc x => sortInsert c x acc) []

/-- `sortIssues` of the order-form variant, applied to the title sequence
returned by the triage endpoint. -/
def sortIssues (sortedTitles : List String) (issues : List Issue) : List Issue :=
  jsArraySort (issueCompare sortedTitles) issues

/-! ### Partition-form reconciliation (`src/unnamed/part_000`, `part_002`)

`categorizeIssues` rebuilds full records per category with
`categorized.Major.map(title => issues.find(i => i.title === title)).filter(Boolean)`
and likewise for `Minor` and `Bug`. -/

/-- The triage response of the categorize endpoint: three title sequences. -/
structure CategorizedTitles where
  Major : List String
  Minor : List String
  Bug : List String
deriving DecidableEq, Repr

/-- The `categorizedIssues` state: full issue records per category. -/
structure CategorizedIssues where
  Major : List Issue
  Minor : List Issue
  Bug : List Issue
deriving DecidableEq, Repr

/-- The initial and reset value `{ Major: [], Minor: [], Bug: [] }`. -/
def emptyCategorized : CategorizedIssues :=
  ⟨[], [], []⟩

/-- One category of `categorizedWithFullIssues`:
`titles.map(t => issues.find(i => i.title === t)).filter(Boolean)`. -/
def bucketOf (issues : List Issue) (titles : List String) : List Issue :=
  titles.filterMap (fun title => issues.find? (fun i => i.title == title))

/-- The `categorizedWithFullIssues` object built by `categorizeIssues`. -/
def categorizedWithFullIssues (issues : List Issue) (c : CategorizedTitles) : CategorizedIssues :=
  ⟨bucketOf issues c.Major, bucketOf issues c.Minor, bucketOf issues c.Bug⟩

/-- Modelled from the spec: the partition form described in section 4.1,
read per category as the issues of the set whose title appears in that
category, in the order the titles appear there. Compared against
`bucketOf` (the source computation) in the C6 theorem. -/
def specCategoryIssues (issues : List Issue) : List String → List Issue
  | [] => []
  | t :: ts => issues.filter (fun i => i.title == t) ++ specCategoryIssues issues ts

/-! ### Coordinator states, handlers and renders

Each variant holds its triage state as independent react fields; the
records below carry exactly the fields the handlers mutate. Handlers are
embedded on their sequential paths as functions of the response data, with
the triage outcome an `Except` so both the success and the failure
(`catch`) paths are covered. `triageCall` records the title list posted to
the triage endpoint, or `none` when no call was issued. -/

/-- State fields of the subset-form variant touched by `handleRepoClick`. -/
structure SubsetState where
  selectedRepo : Option String
  selectedIssue : Option Issue
  issues : List Issue
  importantList : List Issue
  issuesLoading : Bool
deriving DecidableEq, Repr

/-- Initial react state of the subset-form variant. -/
def initialSubsetState : SubsetState :=
  ⟨none, none, [], [], false⟩

/-- The synchronous prefix of `handleRepoClick` (subset form): select the
repository, deselect the issue, clear issues and important issues, raise
the loading flag. Runs before the first await. -/
def clickStart (repoName : String) (s : SubsetState) : SubsetState :=
  { s with selectedRepo := some repoName, selectedIssue := none,
           issues := [], importantList := [], issuesLoading := true }

/-- Sequential `handleRepoClick` of the subset-form variant, given the
issue-gateway response `data` and the triage outcome. The triage call is
issued unconditionally, with the mapped titles; on triage failure the
`catch` block only logs, and `finally` clears the loading flag. -/
def handleRepoClick (data : List Issue) (triage : Except Unit (List String))
    (repoName : String) (s : SubsetState) : SubsetState × Option (List String) :=
  let s1 := clickStart repoName s
  let s2 := { s1 with issues := data }
  let issueTitles := data.map Issue.title
  match triage with
  | .ok importantIssueTitles =>
      ({ s2 with importantList := importantIssues data importantIssueTitles,
                 issuesLoading := false }, some issueTitles)
  | .error _ =>
      ({ s2 with issuesLoading := false }, some issueTitles)

/-- State fields of the order-form variant touched by `handleRepoClick`. -/
structure OrderState where
  selectedRepo : Option String
  selectedIssue : Option Issue
  issues : List Issue
deriving DecidableEq, Repr

/-- Initial react state of the order-form variant. -/
def initialOrderState : OrderState :=
  ⟨none, none, []⟩

/-- Body of `sortIssues` as it affects the `issues` state: on success the
sorted copy is stored, on failure the `catch` block only logs. -/
def sortIssuesCall (triage : Except Unit (List String)) (issues : List Issue) : List Issue :=
  match triage with
  | .ok sortedTitles => sortIssues sortedTitles issues
  | .error _ => issues

/-- Sequential `handleRepoClick` of the order-form variant: select, clear,
store the fetched list, and only when `data.length > 0` run `sortIssues`. -/
def handleRepoClickSorted (data : List Issue) (triage : Except Unit (List String))
    (repoName : String) (s : OrderState) : OrderState × Option (List String) :=
  let s1 := { s with selectedRepo := some repoName, selectedIssue := none, issues := [] }
  let s2 := { s1 with issues := data }
  if data.length > 0 then
    ({ s2 with issues := sortIssuesCall triage data }, some (data.map Issue.title))
  else
    (s2, none)

/-- State fields of the partition-form variants touched by
`handleRepoSelect`. -/
structure PartitionState where
  selectedRepo : Option String
  selectedIssue : Option Issue
  selectedCategory : Option String
  issues : List Issue
  categorizedIssues : CategorizedIssues
deriving DecidableEq, Repr

/-- Initial react state of the partition-form variants. -/
def initialPartitionState : PartitionState :=
  ⟨none, none, none, [], emptyCategorized⟩

/-- Sequential `handleRepoSelect` of the partition-form variants: select,
reset category, clear issues and categories, store the fetched list, and
only when `data.length > 0` run `categorizeIssues`; on triage failure the
`catch` block only logs. -/
def handleRepoSelect (data : List Issue) (triage : Except Unit CategorizedTitles)
    (repoName : String) (s : PartitionState) : PartitionState × Option (List String) :=
  let s1 := { s with selectedRepo := some repoName, selectedIssue := none,
                     selectedCategory := none, issues := [],
                     categorizedIssues := emptyCategorized }
  let s2 := { s1 with issues := data }
  if data.length > 0 then
    match triage with
    | .ok categorized =>
        ({ s2 with categorizedIssues := categorizedWithFullIssues data categorized },
         some (data.map Issue.title))
    | .error _ => (s2, some (data.map Issue.title))
  else
    (s2, none)

/-! ### Renders

Only the branches the claims talk about are modelled: which message or
list the issues area shows for a given state. -/

/-- The issues area of the order-form variant
(`issues.length > 0 ? <DataList .../> : <p>Loading issues for ...</p>`). -/
inductive FlatIssuesView where
  | items (issues : List Issue)
  | loadingText (repo : String)
deriving DecidableEq, Repr

/-- Render of the order-form issues section. -/
def orderIssuesView (repo : String) (issues : List Issue) : FlatIssuesView :=
  if issues.length > 0 then .items issues else .loadingText repo

/-- The main list area of the subset-form variant: either the filtered
issue rows or the `No issues found for ...` empty-state paragraph. -/
inductive MainList where
  | items (issues : List Issue)
  | emptyMessage (repo : String)
deriving DecidableEq, Repr

/-- The issues section of the subset-form variant: the loading paragraph
while `issuesLoading`, otherwise the optional important-issues block plus
the searchable main list. -/
inductive SubsetView where
  | loading (repo : String)
  | content (importantSection : Option (List Issue)) (main : MainList)
deriving DecidableEq, Repr

/-- Render of the subset-form issues section. -/
def subsetIssuesView (issuesLoading : Bool) (repo : String)
    (important filtered : List Issue) : SubsetView :=
  if issuesLoading then .loading repo
  else .content (if important.length > 0 then some important else none)
                (if filtered.length > 0 then .items filtered else .emptyMessage repo)

/-- The category rows of the partition-form variants: name and issue count
per category, in render order. -/
def partitionCategoriesView (c : CategorizedIssues) : List (String × Nat) :=
  [("Major", c.Major.length), ("Minor", c.Minor.length), ("Bug", c.Bug.length)]

/-- Every issue reachable from the partition-form category views. -/
def partitionVisibleIssues (c : CategorizedIssues) : List Issue :=
  c.Major ++ c.Minor ++ c.Bug

/-! ### Overlapping repository selections

`handleRepoClick` has no generation counter: each of its continuations
mutates the shared react state unconditionally when its response resolves.
A run is a schedule of the atomic segments of the competing invocations. -/

/-- Responses of the external gateways, as pure functions so a late
continuation recomputes the same values its closure captured. -/
structure TriageEnv where
  issuesResp : String → List Issue
  aiResp : List String → List String

/-- Atomic segments of one subset-form `handleRepoClick` invocation for a
given repository: the synchronous prefix, the issue-gateway continuation,
and the triage continuation (with its `finally`). -/
inductive TEvent where
  | start (repo : String)
  | issuesResolved (repo : String)
  | aiResolved (repo : String)
deriving DecidableEq, Repr

/-- Apply one segment to the shared state. -/
def stepT (env : TriageEnv) (s : SubsetState) : TEvent → SubsetState
  | .start repo => clickStart repo s
  | .issuesResolved repo => { s with issues := env.issuesResp repo }
  | .aiResolved repo =>
      let data := env.issuesResp repo
      { s with importantList := importantIssues data (env.aiResp (data.map Issue.title)),
               issuesLoading := false }

/-- Run a schedule of segments of overlapping `handleRepoClick` calls. -/
def runT (env : TriageEnv) (events : List TEvent) (s : SubsetState) : SubsetState :=
  events.foldl (stepT env) s

/-! ### Facts about the order-form sort -/

/-- Rank the comparator effectively sorts by: first index of the title in
the returned sequence, with unmatched titles ranked at the length. -/
def issueRank (ts : List String) (i : Issue) : Nat :=
  titleIndex i.title ts

theorem hasSubChars_nil (l : List Char) : hasSubChars [] l = true := by
  cases l <;> rfl

theorem jsIncludes_empty (s : String) : jsIncludes s "" = true := by
  unfold jsIncludes
  exact hasSubChars_nil s.data

theorem titleIndex_le_length (t : String) (ts : List String) :
    titleIndex t ts ≤ ts.length := by
  induction ts with
  | nil => simp [titleIndex]
  | cons s rest ih =>
    simp only [titleIndex, List.length_cons]
    split
    · omega
    · omega

theorem titleIndex_lt_iff_mem (t : String) (ts : List String) :
    titleIndex t ts < ts.length ↔ t ∈ ts := by
  induction ts with
  | nil => simp [titleIndex]
  | cons s rest ih =>
    simp only [titleIndex, List.length_cons, List.mem_cons]
    by_cases h : s == t
    · have hst : s = t := eq_of_beq h
      subst hst
      simp [h]
    · have hst : ¬ t = s := by
        intro he
        subst he
        simp at h
      rw [if_neg h, Nat.add_lt_add_iff_right, ih]
      simp [hst]

theorem jsIndexOf_eq_neg_one_iff (ts : List String) (t : String) :
    jsIndexOf ts t = -1 ↔ titleIndex t ts = ts.length := by
  unfold jsIndexOf
  split
  · simp [*]
  · rename_i h
    simp only [h, iff_false]
    omega

theorem jsIndexOf_of_ne (ts : List String) (t : String)
    (h : titleIndex t ts ≠ ts.length) : jsIndexOf ts t = (titleIndex t ts : Int) := by
  unfold jsIndexOf
  simp [h]

theorem issueCompare_nonneg_iff (ts : List String) (a b : Issue) :
    0 ≤ issueCompare ts a b ↔ issueRank ts b ≤ issueRank ts a := by
  have hlea := titleIndex_le_length a.title ts
  have hleb := titleIndex_le_length b.title ts
  simp only [issueCompare, issueRank]
  by_cases ha : titleIndex a.title ts = ts.length
  · have h1 : jsIndexOf ts a.title = -1 := (jsIndexOf_eq_neg_one_iff ts a.title).2 ha
    rw [h1, if_pos rfl]
    constructor
    · intro _
      omega
    · intro _
      omega
  · have e1 : jsIndexOf ts a.title = (titleIndex a.title ts : Int) := jsIndexOf_of_ne ts a.title ha
    rw [e1, if_neg (by omega)]
    by_cases hb : titleIndex b.title ts = ts.length
    · have h2 : jsIndexOf ts b.title = -1 := (jsIndexOf_eq_neg_one_iff ts b.title).2 hb
      rw [h2, if_pos rfl]
      constructor
      · intro h3
        omega
      · intro h3
        omega
    · have e2 : jsIndexOf ts b.title = (titleIndex b.title ts : Int) := jsIndexOf_of_ne ts b.title hb
      rw [e2, if_neg (by omega)]
      omega

theorem sortInsert_perm (c : Issue → Issue → Int) (x : Issue) (l : List Issue) :
    (sortInsert c x l).Perm (x :: l) := by
  induction l with
  | nil => exact List.Perm.refl _
  | cons y ys ih =>
    unfold sortInsert
    split
    · exact (ih.cons y).trans (List.Perm.swap x y ys)
    · exact List.Perm.refl _

theorem mem_sortInsert (c : Issue → Issue → Int) (x z : Issue) (l : List Issue) :
    z ∈ sortInsert c x l ↔ z = x ∨ z ∈ l := by
  have h := (sortInsert_perm c x l).mem_iff (a := z)
  simpa using h

theorem sortInsert_pairwise (c : Issue → Issue → Int) (k : Issue → Nat)
    (hc : ∀ a b, 0 ≤ c a b ↔ k b ≤ k a) (x : Issue) (l : List Issue)
    (h : l.Pairwise (fun a b => k a ≤ k b)) :
    (sortInsert c x l).Pairwise (fun a b => k a ≤ k b) := by
  induction l with
  | nil => simp [sortInsert]
  | cons y ys ih =>
    rcases List.pairwise_cons.1 h with ⟨hy, hys⟩
    unfold sortInsert
    split
    · rename_i hcxy
      have hky : k y ≤ k x := (hc x y).1 hcxy
      refine List.pairwise_cons.2 ⟨?_, ih hys⟩
      intro z hz
      rcases (mem_sortInsert c x z ys).1 hz with rfl | hzys
      · exact hky
      · exact hy z hzys
    · rename_i hcxy
      have hkxy : k x < k y := by
        have h2 : ¬ k y ≤ k x := fun hk => hcxy ((hc x y).2 hk)
        omega
      refine List.pairwise_cons.2 ⟨?_, h⟩
      intro z hz
      rcases List.mem_cons.1 hz with rfl | hzys
      · omega
      · have := hy z hzys
        omega

theorem sortInsert_filter_eq (c : Issue → Issue → Int) (k : Issue → Nat)
    (hc : ∀ a b, 0 ≤ c a b ↔ k b ≤ k a) (x : Issue) (l : List Issue)
    (h : l.Pairwise (fun a b => k a ≤ k b)) (v : Nat) :
    (sortInsert c x l).filter (fun z => k z == v)
      = if k x = v then l.filter (fun z => k z == v) ++ [x]
        else l.filter (fun z => k z == v) := by
  induction l with
  | nil =>
    by_cases hv : k x = v <;> simp [sortInsert, hv]
  | cons y ys ih =>
    rcases List.pairwise_cons.1 h with ⟨hy, hys⟩
    unfold sortInsert
    split
    · rename_i hcxy
      rw [List.filter_cons, ih hys]
      by_cases hv : k x = v <;> by_cases hyv : k y = v <;>
        simp [hv, hyv, List.filter_cons]
    · rename_i hcxy
      have hkxy : k x < k y := by
        have h2 : ¬ k y ≤ k x := fun hk => hcxy ((hc x y).2 hk)
        omega
      by_cases hv : k x = v
      · have hnil : (y :: ys).filter (fun z => k z == v) = [] := by
          rw [List.filter_eq_nil_iff]
          intro a ha
          have hge : k y ≤ k a := by
            rcases List.mem_cons.1 ha with rfl | h2
            · exact le_refl _
            · exact hy a h2
          have hne : k a ≠ v := by omega
          simpa using hne
        simp [List.filter_cons, hv, hnil]
      · simp [List.filter_cons, hv]

theorem foldlInsert_pairwise (c : Issue → Issue → Int) (k : Issue → Nat)
    (hc : ∀ a b, 0 ≤ c a b ↔ k b ≤ k a) (l : List Issue) :
    ∀ acc : List Issue, acc.Pairwise (fun a b => k a ≤ k b) →
      (l.foldl (fun a x => sortInsert c x a) acc).Pairwise (fun a b => k a ≤ k b) := by
  induction l with
  | nil => exact fun acc h => h
  | cons x xs ih =>
    intro acc hacc
    exact ih (sortInsert c x acc) (sortInsert_pairwise c k hc x acc hacc)

theorem foldlInsert_perm (c : Issue → Issue → Int) (l : List Issue) :
    ∀ acc : List Issue, (l.foldl (fun a x => sortInsert c x a) acc).Perm (acc ++ l) := by
  induction l with
  | nil => intro acc; simp
  | cons x xs ih =>
    intro acc
    have h1 := ih (sortInsert c x acc)
    have h2 : (sortInsert c x acc ++ xs).Perm (x :: (acc ++ xs)) :=
      List.Perm.append_right xs (sortInsert_perm c x acc)
    exact (h1.trans h2).trans List.perm_middle.symm

theorem foldlInsert_filter (c : Issue → Issue → Int) (k : Issue → Nat)
    (hc : ∀ a b, 0 ≤ c a b ↔ k b ≤ k a) (v : Nat) (l : List Issue) :
    ∀ acc : List Issue, acc.Pairwise (fun a b => k a ≤ k b) →
      (l.foldl (fun a x => sortInsert c x a) acc).filter (fun z => k z == v)
        = acc.filter (fun z => k z == v) ++ l.filter (fun z => k z == v) := by
  induction l with
  | nil => intro acc _; simp
  | cons x xs ih =>
    intro acc hacc
    have h1 := ih (sortInsert c x acc) (sortInsert_pairwise c k hc x acc hacc)
    have h2 := sortInsert_filter_eq c k hc x acc hacc v
    calc ((x :: xs).foldl (fun a y => sortInsert c y a) acc).filter (fun z => k z == v)
        = ((sortInsert c x acc).filter (fun z => k z == v))
            ++ xs.filter (fun z => k z == v) := h1
      _ = acc.filter (fun z => k z == v) ++ (x :: xs).filter (fun z => k z == v) := by
          rw [h2]
          by_cases hv : k x = v <;> simp [hv, List.filter_cons, List.append_assoc]

theorem sortIssues_perm (ts : List String) (L : List Issue) :
    (sortIssues ts L).Perm L := by
  have h := foldlInsert_perm (issueCompare ts) L []
  simpa [sortIssues, jsArraySort] using h

theorem sortIssues_pairwise (ts : List String) (L : List Issue) :
    (sortIssues ts L).Pairwise (fun a b => issueRank ts a ≤ issueRank ts b) :=
  foldlInsert_pairwise (issueCompare ts) (issueRank ts)
    (issueCompare_nonneg_iff ts) L [] List.Pairwise.nil

theorem sortIssues_filter_rank (ts : List String) (L : List Issue) (v : Nat) :
    (sortIssues ts L).filter (fun i => issueRank ts i == v)
      = L.filter (fun i => issueRank ts i == v) := by
  have h := foldlInsert_filter (issueCompare ts) (issueRank ts)
    (issueCompare_nonneg_iff ts) v L [] List.Pairwise.nil
  simpa [sortIssues, jsArraySort] using h

/-! ### Facts about the partition-form and subset-form reconciliation -/

theorem bucketOf_mem_issues (L : List Issue) (ts : List String) (i : Issue)
    (h : i ∈ bucketOf L ts) : i ∈ L := by
  simp only [bucketOf, List.mem_filterMap] at h
  rcases h with ⟨t, _, hf⟩
  exact List.mem_of_find?_eq_some hf

theorem bucketOf_find_self (L : List Issue) (ts : List String) (i : Issue)
    (h : i ∈ bucketOf L ts) :
    L.find? (fun j => j.title == i.title) = some i := by
  simp only [bucketOf, List.mem_filterMap] at h
  rcases h with ⟨t, _, hf⟩
  have hp := List.find?_some hf
  have ht : i.title = t := eq_of_beq hp
  rw [ht]
  exact hf

theorem bucketOf_title_mem (L : List Issue) (ts : List String) (i : Issue)
    (h : i ∈ bucketOf L ts) : i.title ∈ ts := by
  simp only [bucketOf, List.mem_filterMap] at h
  rcases h with ⟨t, ht, hf⟩
  have hp := List.find?_some hf
  have he : i.title = t := eq_of_beq hp
  rw [he]
  exact ht

theorem filter_title_eq_of_distinct (L : List Issue)
    (hnd : L.Pairwise (fun a b => a.title ≠ b.title)) (t : String) :
    L.filter (fun i => i.title == t) = (L.find? (fun i => i.title == t)).toList := by
  induction L with
  | nil => rfl
  | cons a L ih =>
    rcases List.pairwise_cons.1 hnd with ⟨ha, hnd2⟩
    by_cases h : a.title == t
    · have hat : a.title = t := eq_of_beq h
      have hnil : L.filter (fun i => i.title == t) = [] := by
        rw [List.filter_eq_nil_iff]
        intro b hb hbt
        exact ha b hb (hat.trans (eq_of_beq hbt).symm)
      simp [List.filter_cons, List.find?_cons, h, hnil]
    · simp [List.filter_cons, List.find?_cons, h, ih hnd2]

theorem bucketOf_eq_spec (L : List Issue) (ts : List String)
    (hnd : L.Pairwise (fun a b => a.title ≠ b.title)) :
    bucketOf L ts = specCategoryIssues L ts := by
  induction ts with
  | nil => rfl
  | cons t ts ih =>
    simp only [bucketOf, List.filterMap_cons, specCategoryIssues]
    rw [filter_title_eq_of_distinct L hnd t]
    cases hf : L.find? (fun i => i.title == t) with
    | none => simpa [hf] using ih
    | some b => simpa [hf] using ih

theorem mem_importantIssues (L : List Issue) (R : List String) (i : Issue) :
    i ∈ importantIssues L R ↔ i ∈ L ∧ R.contains i.title = true :=
  List.mem_filter

theorem filteredIssues_no_search_no_important (L : List Issue) :
    filteredIssues L [] "" = L := by
  refine List.filter_eq_self.2 ?_
  intro a _
  have h1 : jsToLower "" = "" := rfl
  rw [h1, jsIncludes_empty]
  simp

theorem contains_true_of_mem (ts : List String) (t : String) (h : t ∈ ts) :
    ts.contains t = true :=
  List.elem_eq_true_of_mem h

theorem contains_false_of_not_mem (ts : List String) (t : String) (h : t ∉ ts) :
    ts.contains t = false := by
  cases hc : ts.contains t
  · rfl
  · exact absurd (List.mem_of_elem_eq_true hc) h

/-! ### Claim theorems -/

/-- C2. For every IssueSet `L` and every order-form TriageResult `ts`,
`sortIssues` produces a total reordering of `L` in which issues whose title
occurs in `ts` appear in the order their titles first appear in `ts`,
and every issue with no matching title appears after all matched issues,
preserving its original relative order among the other unmatched issues. -/
theorem C2_order_form_stable_reordering (ts : List String) (L : List Issue) :
    (sortIssues ts L).Perm L
  ∧ (sortIssues ts L).Pairwise (fun a b =>
      a.title ∈ ts → b.title ∈ ts → titleIndex a.title ts ≤ titleIndex b.title ts)
  ∧ (sortIssues ts L).Pairwise (fun a b => a.title ∉ ts → b.title ∉ ts)
  ∧ (sortIssues ts L).filter (fun i => !(ts.contains i.title))
      = L.filter (fun i => !(ts.contains i.title)) := by
  have hpw := sortIssues_pairwise ts L
  refine ⟨sortIssues_perm ts L, ?_, ?_, ?_⟩
  · exact hpw.imp (fun h _ _ => h)
  · refine hpw.imp ?_
    intro a b hab hna hbm
    have hltb : titleIndex b.title ts < ts.length := (titleIndex_lt_iff_mem _ _).2 hbm
    have hlea := titleIndex_le_length a.title ts
    have hnlt : ¬ titleIndex a.title ts < ts.length :=
      fun hlt => hna ((titleIndex_lt_iff_mem _ _).1 hlt)
    simp only [issueRank] at hab
    omega
  · have hfun : (fun i : Issue => !(ts.contains i.title))
        = (fun i : Issue => issueRank ts i == ts.length) := by
      funext i
      by_cases h : i.title ∈ ts
      · have hlt : titleIndex i.title ts < ts.length := (titleIndex_lt_iff_mem _ _).2 h
        have hne : issueRank ts i ≠ ts.length := by
          simp only [issueRank]
          omega
        rw [contains_true_of_mem ts i.title h]
        simp [hne]
      · have hle := titleIndex_le_length i.title ts
        have hnlt : ¬ titleIndex i.title ts < ts.length :=
          fun hlt => h ((titleIndex_lt_iff_mem _ _).1 hlt)
        have heq : issueRank ts i = ts.length := by
          simp only [issueRank]
          omega
        rw [contains_false_of_not_mem ts i.title h]
        simp [heq]
    rw [hfun]
    exact sortIssues_filter_rank ts L ts.length

/-- C3. In all three reconciliation forms the output is drawn only from the
fetched IssueSet: the order form permutes it, and the partition and subset
forms select from it, so a response title with no equal issue title never
materializes an issue (and reconciliation is total, so it never throws). -/
theorem C3_reconcile_only_from_issueSet :
    (∀ (ts : List String) (L : List Issue), (sortIssues ts L).Perm L)
  ∧ (∀ (L : List Issue) (ts : List String) (i : Issue), i ∈ bucketOf L ts → i ∈ L)
  ∧ (∀ (L : List Issue) (R : List String) (i : Issue), i ∈ importantIssues L R → i ∈ L) := by
  refine ⟨sortIssues_perm, bucketOf_mem_issues, ?_⟩
  intro L R i h
  exact (List.mem_filter.1 h).1

/-- Witness for C3 at a concrete input. -/
theorem C3_reconcile_only_from_issueSet_witness :
    (⟨1, 1, "t", ""⟩ : Issue) ∈ [(⟨1, 1, "t", ""⟩ : Issue)]
  ∧ (⟨1, 1, "t", ""⟩ : Issue) ∈ [(⟨1, 1, "t", ""⟩ : Issue)] :=
  ⟨C3_reconcile_only_from_issueSet.2.1 [⟨1, 1, "t", ""⟩] ["t"] ⟨1, 1, "t", ""⟩ (by decide),
   C3_reconcile_only_from_issueSet.2.2 [⟨1, 1, "t", ""⟩] ["t"] ⟨1, 1, "t", ""⟩ (by decide)⟩

/-- C6 counterexample: with two issues sharing the title `t` and the
category holding one occurrence of `t`, both issues of the set have their
title in the category, yet the reconciled bucket holds only the first
issue: it is not the sequence of issues of the set whose title appears in
the category, and it differs from the spec-side reading of that sentence. -/
theorem C6_counterexample_duplicate_titles :
    bucketOf [⟨1, 1, "t", "x"⟩, ⟨2, 2, "t", "y"⟩] ["t"] = [⟨1, 1, "t", "x"⟩]
  ∧ (⟨2, 2, "t", "y"⟩ : Issue).title ∈ ["t"]
  ∧ (⟨2, 2, "t", "y"⟩ : Issue) ∉ bucketOf [⟨1, 1, "t", "x"⟩, ⟨2, 2, "t", "y"⟩] ["t"]
  ∧ bucketOf [⟨1, 1, "t", "x"⟩, ⟨2, 2, "t", "y"⟩] ["t"]
      ≠ specCategoryIssues [⟨1, 1, "t", "x"⟩, ⟨2, 2, "t", "y"⟩] ["t"] := by
  decide

/-- C6 amended. Partition-form reconciliation places, for each occurrence
of a title in a category, the first issue of the set bearing that title
(dropping occurrences with no bearer): an issue sits in a bucket only if it
is the first bearer of its title, every title occurring in a category
places its first bearer in that bucket, and an issue placed in a bucket has
its title in that category, so a title in no category is placed nowhere.
When the issue titles are pairwise distinct this is exactly the sequence of
issues of the set whose title appears in the category, in the order the
titles appear there; and the concrete scenario from the specification
evaluates as stated. -/
theorem C6_partition_first_match_reconciliation :
    (∀ (L : List Issue) (cat : List String) (i : Issue),
        i ∈ bucketOf L cat → L.find? (fun j => j.title == i.title) = some i)
  ∧ (∀ (L : List Issue) (cat : List String) (t : String) (i : Issue),
        t ∈ cat → L.find? (fun j => j.title == t) = some i → i ∈ bucketOf L cat)
  ∧ (∀ (L : List Issue) (cat : List String) (i : Issue),
        i ∈ bucketOf L cat → i.title ∈ cat)
  ∧ (∀ (L : List Issue) (cat : List String),
        L.Pairwise (fun a b => a.title ≠ b.title) →
        bucketOf L cat = specCategoryIssues L cat)
  ∧ categorizedWithFullIssues
        [⟨1, 1, "fix login", ""⟩, ⟨2, 2, "typo", ""⟩, ⟨3, 3, "crash on save", ""⟩]
        ⟨["crash on save"], ["typo"], []⟩
      = ⟨[⟨3, 3, "crash on save", ""⟩], [⟨2, 2, "typo", ""⟩], []⟩ := by
  refine ⟨bucketOf_find_self, ?_, bucketOf_title_mem, bucketOf_eq_spec, by decide⟩
  intro L cat t i ht hf
  simp only [bucketOf, List.mem_filterMap]
  exact ⟨t, ht, hf⟩

/-- Witness for C6 at concrete inputs: a duplicate-title set where the
first bearer is placed, and a distinct-title set matching the spec-side
sequence. -/
theorem C6_partition_first_match_reconciliation_witness :
    (⟨1, 1, "t", "x"⟩ : Issue) ∈ bucketOf [⟨1, 1, "t", "x"⟩, ⟨2, 2, "t", "y"⟩] ["t"]
  ∧ (⟨1, 1, "t", "x"⟩ : Issue).title ∈ ["t"]
  ∧ bucketOf [(⟨1, 1, "a", ""⟩ : Issue)] ["a"]
      = specCategoryIssues [(⟨1, 1, "a", ""⟩ : Issue)] ["a"] :=
  ⟨C6_partition_first_match_reconciliation.2.1 [⟨1, 1, "t", "x"⟩, ⟨2, 2, "t", "y"⟩]
      ["t"] "t" ⟨1, 1, "t", "x"⟩ (by decide) (by decide),
   C6_partition_first_match_reconciliation.2.2.1 [⟨1, 1, "t", "x"⟩, ⟨2, 2, "t", "y"⟩]
      ["t"] ⟨1, 1, "t", "x"⟩ (by decide),
   C6_partition_first_match_reconciliation.2.2.2.1 [⟨1, 1, "a", ""⟩] ["a"] (by decide)⟩

/-- C7 counterexample: with two issues sharing the title `t` and one
occurrence of `t` in a category, partition-form reconciliation places only
the first issue; the second never matches, so it is not true that both
issues match any occurrence of their title in the partition form. -/
theorem C7_counterexample :
    (⟨2, 2, "t", "y"⟩ : Issue) ∈ [(⟨1, 1, "t", "x"⟩ : Issue), ⟨2, 2, "t", "y"⟩]
  ∧ ("t" : String) ∈ ["t"]
  ∧ (⟨2, 2, "t", "y"⟩ : Issue) ∉ bucketOf [⟨1, 1, "t", "x"⟩, ⟨2, 2, "t", "y"⟩] ["t"]
  ∧ bucketOf [⟨1, 1, "t", "x"⟩, ⟨2, 2, "t", "y"⟩] ["t"] = [⟨1, 1, "t", "x"⟩] := by
  decide

/-- C7 amended. In the subset form every issue whose title is in the
returned set matches, so issues with identical titles all match; in the
partition form an issue is placed in a bucket only when it is the first
issue of the set bearing its title, so of two issues with identical titles
only the earlier one ever matches. -/
theorem C7_duplicate_title_matching :
    (∀ (L : List Issue) (R : List String) (i : Issue),
        i ∈ L → R.contains i.title = true → i ∈ importantIssues L R)
  ∧ (∀ (L : List Issue) (ts : List String) (i : Issue),
        i ∈ bucketOf L ts → L.find? (fun j => j.title == i.title) = some i) := by
  refine ⟨?_, bucketOf_find_self⟩
  intro L R i hL hc
  exact List.mem_filter.2 ⟨hL, hc⟩

/-- Witness for C7 at a concrete input: both duplicate-title issues land in
the subset form, and the issue placed by the partition form is the first
one bearing the title. -/
theorem C7_duplicate_title_matching_witness :
    (⟨2, 2, "t", "y"⟩ : Issue) ∈ importantIssues [⟨1, 1, "t", "x"⟩, ⟨2, 2, "t", "y"⟩] ["t"]
  ∧ List.find? (fun j => j.title == (⟨1, 1, "t", "x"⟩ : Issue).title)
        [(⟨1, 1, "t", "x"⟩ : Issue), ⟨2, 2, "t", "y"⟩] = some ⟨1, 1, "t", "x"⟩ :=
  ⟨C7_duplicate_title_matching.1 [⟨1, 1, "t", "x"⟩, ⟨2, 2, "t", "y"⟩] ["t"]
      ⟨2, 2, "t", "y"⟩ (by decide) (by decide),
   C7_duplicate_title_matching.2 [⟨1, 1, "t", "x"⟩, ⟨2, 2, "t", "y"⟩] ["t"]
      ⟨1, 1, "t", "x"⟩ (by decide)⟩

/-- C10. In the subset-form view the remaining list excludes, by issue id,
every issue placed in the important group, so no issue appears in both
groups, even when titles collide. -/
theorem C10_groups_disjoint_by_id (L : List Issue) (R : List String)
    (q : String) (i : Issue) (h : i ∈ filteredIssues L (importantIssues L R) q) :
    (∀ j ∈ importantIssues L R, j.id ≠ i.id) ∧ i ∉ importantIssues L R := by
  have hm := List.mem_filter.1 h
  rcases hm with ⟨hiL, hp⟩
  rw [Bool.and_eq_true] at hp
  rcases hp with ⟨_, hnot⟩
  have hany : (importantIssues L R).any (fun imp => imp.id == i.id) = false := by
    cases hcase : (importantIssues L R).any (fun imp => imp.id == i.id)
    · rfl
    · rw [hcase] at hnot
      simp at hnot
  have hall := List.any_eq_false.1 hany
  constructor
  · intro j hj
    have hjf := hall j hj
    simpa using hjf
  · intro hmem
    have hif := hall i hmem
    simp at hif

/-- Witness for C10 at a concrete input with two issues and one important
title. -/
theorem C10_groups_disjoint_by_id_witness :
    (∀ j ∈ importantIssues [(⟨1, 1, "a", ""⟩ : Issue), ⟨2, 2, "b", ""⟩] ["a"],
        j.id ≠ (⟨2, 2, "b", ""⟩ : Issue).id)
  ∧ (⟨2, 2, "b", ""⟩ : Issue)
      ∉ importantIssues [(⟨1, 1, "a", ""⟩ : Issue), ⟨2, 2, "b", ""⟩] ["a"] :=
  C10_groups_disjoint_by_id [⟨1, 1, "a", ""⟩, ⟨2, 2, "b", ""⟩] ["a"] ""
    ⟨2, 2, "b", ""⟩ (by decide)

/-- C8. For every submitCommand invocation the result area is pending
(spinner, cleared output) from the moment the submission starts, and on
completion the opaque result replaces whatever was displayed before; the
overwrite is unconditional, so with concurrent submissions the displayed
result is the last response to resolve, with no per-submission token
guard. -/
theorem C8_command_last_resolved_wins :
    (∀ (s : CmdState) (es : List CmdEvent),
        runCmd s (es ++ [CmdEvent.start]) = ⟨"", true⟩)
  ∧ (∀ (s : CmdState) (es : List CmdEvent) (r : String),
        runCmd s (es ++ [CmdEvent.finish r]) = ⟨r, false⟩) := by
  constructor
  · intro s es
    simp [runCmd, List.foldl_append, cmdStep]
  · intro s es r
    simp [runCmd, List.foldl_append, cmdStep]

/-- C1, failing run. `handleRepoClick` has no staleness guard: with the
issue gateway answering `[issue 1]` for repository `A` and `[issue 2]` for
repository `B`, the schedule in which `A` is selected, then `B`, then all
of the responses for `B` resolve, and only afterwards the stale responses
for `A` resolve, ends with repository `B` selected but the visible issue
list equal to the data of `A`, not the list computed for `B`. -/
theorem C1_stale_response_overwrites :
    runT ⟨fun r => if r = "A" then [⟨1, 1, "a", ""⟩] else [⟨2, 2, "b", ""⟩], fun _ => []⟩
        [TEvent.start "A", TEvent.start "B", TEvent.issuesResolved "B",
         TEvent.aiResolved "B", TEvent.issuesResolved "A", TEvent.aiResolved "A"]
        initialSubsetState
      = ⟨some "B", none, [⟨1, 1, "a", ""⟩], [], false⟩
  ∧ TriageEnv.issuesResp
        ⟨fun r => if r = "A" then [⟨1, 1, "a", ""⟩] else [⟨2, 2, "b", ""⟩], fun _ => []⟩ "B"
      = [⟨2, 2, "b", ""⟩]
  ∧ ([⟨1, 1, "a", ""⟩] : List Issue) ≠ [⟨2, 2, "b", ""⟩] := by
  refine ⟨?_, ?_, by decide⟩
  · rfl
  · rfl

/-- C4 counterexample: in the subset-form variant `handleRepoClick` issues
the triage call unconditionally, so a selection whose fetch settles with an
empty issue list still posts to the triage endpoint (with an empty title
list), contradicting the claim that no Triage Service call is made. -/
theorem C4_counterexample_subset_calls_triage :
    (handleRepoClick [] (Except.ok []) "r" initialSubsetState).2 = some []
  ∧ (some [] : Option (List String)) ≠ none := by
  exact ⟨rfl, by decide⟩

/-- C4 amended. On a successful fetch with an empty list: the
partition-form variants make no triage call, keep the empty partition, and
render three zero-count categories; the order-form variant makes no triage
call but its flat view shows the loading message instead of a zero-item
state; the subset-form variant posts the triage call with an empty title
list, though its settled view does show the explicit empty-state. -/
theorem C4_empty_fetch_behavior :
    (∀ (t : Except Unit CategorizedTitles) (repo : String) (s : PartitionState),
        (handleRepoSelect [] t repo s).2 = none
      ∧ (handleRepoSelect [] t repo s).1.categorizedIssues = emptyCategorized
      ∧ partitionCategoriesView (handleRepoSelect [] t repo s).1.categorizedIssues
          = [("Major", 0), ("Minor", 0), ("Bug", 0)]
      ∧ partitionVisibleIssues (handleRepoSelect [] t repo s).1.categorizedIssues = [])
  ∧ (∀ (t : Except Unit (List String)) (repo : String) (s : OrderState),
        (handleRepoClickSorted [] t repo s).2 = none
      ∧ (handleRepoClickSorted [] t repo s).1.issues = []
      ∧ orderIssuesView repo (handleRepoClickSorted [] t repo s).1.issues
          = FlatIssuesView.loadingText repo)
  ∧ (∀ (ts : List String) (repo : String) (s : SubsetState),
        (handleRepoClick [] (Except.ok ts) repo s).2 = some []
      ∧ (handleRepoClick [] (Except.ok ts) repo s).1.issues = []
      ∧ (handleRepoClick [] (Except.ok ts) repo s).1.importantList = []
      ∧ (handleRepoClick [] (Except.ok ts) repo s).1.issuesLoading = false
      ∧ subsetIssuesView (handleRepoClick [] (Except.ok ts) repo s).1.issuesLoading repo
            (handleRepoClick [] (Except.ok ts) repo s).1.importantList
            (filteredIssues (handleRepoClick [] (Except.ok ts) repo s).1.issues
              (handleRepoClick [] (Except.ok ts) repo s).1.importantList "")
          = SubsetView.content none (MainList.emptyMessage repo)) := by
  refine ⟨?_, ?_, ?_⟩
  · intro t repo s
    exact ⟨rfl, rfl, rfl, rfl⟩
  · intro t repo s
    exact ⟨rfl, rfl, rfl⟩
  · intro ts repo s
    exact ⟨rfl, rfl, rfl, rfl, rfl⟩

/-- C5 counterexample: in the partition-form variant a successful fetch of
one issue followed by a triage failure leaves the issue list in state but
renders only three empty categories; not a single issue is visible, so the
IssueSet is not fully visible as a flat list. -/
theorem C5_counterexample_partition_hides_issues :
    (handleRepoSelect [⟨1, 1, "t", ""⟩] (Except.error ()) "r" initialPartitionState).1.issues
        = [⟨1, 1, "t", ""⟩]
  ∧ partitionVisibleIssues
        (handleRepoSelect [⟨1, 1, "t", ""⟩] (Except.error ()) "r"
          initialPartitionState).1.categorizedIssues = []
  ∧ partitionCategoriesView
        (handleRepoSelect [⟨1, 1, "t", ""⟩] (Except.error ()) "r"
          initialPartitionState).1.categorizedIssues
        = [("Major", 0), ("Minor", 0), ("Bug", 0)]
  ∧ ([⟨1, 1, "t", ""⟩] : List Issue) ≠ [] := by
  exact ⟨rfl, rfl, rfl, by decide⟩

/-- C5 amended. On triage failure the IssueSet remains the fetched list in
every variant; the order-form and subset-form variants keep it fully
visible as an unsorted flat list (in the subset form with no important
group and an empty search matching everything), while the partition-form
variants keep only the empty categories, with no flat fallback. -/
theorem C5_triage_failure_degradation :
    (∀ (data : List Issue) (repo : String) (s : OrderState),
        (handleRepoClickSorted data (Except.error ()) repo s).1.issues = data
      ∧ (data ≠ [] → orderIssuesView repo data = FlatIssuesView.items data))
  ∧ (∀ (data : List Issue) (repo : String) (s : SubsetState),
        (handleRepoClick data (Except.error ()) repo s).1.issues = data
      ∧ (handleRepoClick data (Except.error ()) repo s).1.importantList = []
      ∧ (handleRepoClick data (Except.error ()) repo s).1.issuesLoading = false
      ∧ filteredIssues data [] "" = data)
  ∧ (∀ (data : List Issue) (repo : String) (s : PartitionState),
        (handleRepoSelect data (Except.error ()) repo s).1.issues = data
      ∧ (handleRepoSelect data (Except.error ()) repo s).1.categorizedIssues
          = emptyCategorized) := by
  refine ⟨?_, ?_, ?_⟩
  · intro data repo s
    constructor
    · simp only [handleRepoClickSorted, sortIssuesCall]
      split <;> rfl
    · intro hne
      unfold orderIssuesView
      rw [if_pos (List.length_pos.2 hne)]
  · intro data repo s
    exact ⟨rfl, rfl, rfl, filteredIssues_no_search_no_important data⟩
  · intro data repo s
    constructor
    · simp only [handleRepoSelect]
      split <;> rfl
    · simp only [handleRepoSelect]
      split <;> rfl

/-- Witness for C5 at a concrete input with a nonempty fetched list. -/
theorem C5_triage_failure_degradation_witness :
    orderIssuesView "r" [⟨1, 1, "t", ""⟩] = FlatIssuesView.items [⟨1, 1, "t", ""⟩] :=
  (C5_triage_failure_degradation.1 [⟨1, 1, "t", ""⟩] "r" initialOrderState).2 (by decide)

/-- C9 counterexample: in the order-form variant a selection whose fetch
settles with zero issues leaves the issues area showing the loading
paragraph, not an empty-state message. -/
theorem C9_counterexample_loading_on_empty :
    orderIssuesView "expressjs/express"
        (handleRepoClickSorted [] (Except.ok []) "expressjs/express"
          initialOrderState).1.issues
      = FlatIssuesView.loadingText "expressjs/express"
  ∧ FlatIssuesView.loadingText "expressjs/express"
      ≠ FlatIssuesView.items ([] : List Issue) := by
  exact ⟨rfl, by decide⟩

/-- C9 amended. After a fetch settles with zero issues the subset-form
variant renders the explicit `No issues found` empty-state with the loading
flag cleared, but the order-form flat view renders the loading paragraph
whenever the issue list is empty, settled or not. -/
theorem C9_empty_state_rendering :
    (∀ (ts : List String) (repo : String) (s : SubsetState),
        (handleRepoClick [] (Except.ok ts) repo s).1.issuesLoading = false
      ∧ subsetIssuesView (handleRepoClick [] (Except.ok ts) repo s).1.issuesLoading repo
            (handleRepoClick [] (Except.ok ts) repo s).1.importantList
            (filteredIssues (handleRepoClick [] (Except.ok ts) repo s).1.issues
              (handleRepoClick [] (Except.ok ts) repo s).1.importantList "")
          = SubsetView.content none (MainList.emptyMessage repo))
  ∧ (∀ (t : Except Unit (List String)) (repo : String) (s : OrderState),
        orderIssuesView repo (handleRepoClickSorted [] t repo s).1.issues
          = FlatIssuesView.loadingText repo) := by
  constructor
  · intro ts repo s
    exact ⟨rfl, rfl⟩
  · intro t repo s
    rfl
